import Mathlib

/-!
Verification development for the execution core of a differential symbolic
analyzer (KLEE-style).  The definitions below are shallow embeddings of the
repository's C++ sources:

* `lib/Expr/ExprUtil.cpp`   — `pickPatchNo`, `splitExpr`, `findReads`
* `lib/Core/Differentiator.{h,cpp}` — the `Differentiator` record and its
  textual rendering (`operator<<`, `writeHex`, `quoted`)
* `lib/Core/ExecutionState.cpp` — `ExecutionState::merge`
* `tools/ktest-gen/ktest-gen.cpp` — `push_obj`

Machine integers (`std::uint64_t` revision tags, `uint8_t` counters, bytes)
are modelled as `Nat` with explicit bounds/wrap where the arithmetic matters.
Byte strings (`std::string` used as raw byte containers) are modelled as
`List Nat`, each element a byte value.
-/

namespace Klee

/-! ## Revision tags and the patch combinator (ExprUtil.cpp:138-141)

`std::uint64_t pickPatchNo(std::uint64_t m, std::uint64_t n) {
   // 0 means original, uint64_t max means merged.
   return (0ull < n && n < 0xffffffffffffffffull) ? n : m;
 }` -/

/-- Revision tag: `std::uint64_t`; tag 0 means original, the max value is the
"already merged" sentinel. -/
abbrev PatchNo := Nat

/-- `0xffffffffffffffffull`, the "merged / ambiguous provenance" sentinel. -/
def mergedSentinel : PatchNo := 0xffffffffffffffff

/-- A "real" revision number: strictly between 0 and the sentinel. -/
def RealRev (k : PatchNo) : Prop := 0 < k ∧ k < mergedSentinel

instance (k : PatchNo) : Decidable (RealRev k) := by
  unfold RealRev; infer_instance

/-- `pickPatchNo` from ExprUtil.cpp:138-141. -/
def pickPatchNo (m n : PatchNo) : PatchNo :=
  if 0 < n ∧ n < mergedSentinel then n else m

/-! ## Expression DAG

The expression node model mirrors `klee::Expr` as used by ExprUtil.cpp.
Every node carries the boolean multi-revision flag `meta`; select nodes
additionally carry the `merge` flag and the per-branch patch indices
`truePatch` / `falsePatch`.  Read nodes carry their update list (ordered
(index, value) pairs) and a root-array identifier.  The 23 binary
arithmetic/logic/comparison kinds expanded by the `SPLIT_AL_EXPR` macro are
one `binop` constructor over a kind tag. -/

/-- The binary operator kinds listed in the `SPLIT_AL_EXPR` macro expansion
(ExprUtil.cpp:224-246). -/
inductive BinKind where
  | add | sub | mul | udiv | sdiv | urem | srem
  | and | or | xor | shl | lshr | ashr
  | eq | ne | ult | ule | ugt | uge | slt | sle | sgt | sge
deriving DecidableEq, Repr

mutual

/-- Update chain of a read: ordered list of `(index, value)` write pairs
(`UpdateNode` linked list, head first). -/
inductive UpdateChain where
  | nil : UpdateChain
  | node (index value : Expr) (next : UpdateChain) : UpdateChain

/-- Expression node (`klee::Expr`).  Field `meta` is the multi-revision
flag checked by `splitExpr`. -/
inductive Expr where
  | constant (meta : Bool) (width value : Nat) : Expr
  | notOptimized (meta : Bool) (src : Expr) : Expr
  | read (meta : Bool) (updates : UpdateChain) (root : Nat) (index : Expr) : Expr
  | select (meta mrg : Bool) (truePatch falsePatch : PatchNo)
      (cond trueExpr falseExpr : Expr) : Expr
  | concat (meta : Bool) (left right : Expr) : Expr
  | extract (meta : Bool) (expr : Expr) (offset width : Nat) : Expr
  | zext (meta : Bool) (src : Expr) (width : Nat) : Expr
  | sext (meta : Bool) (src : Expr) (width : Nat) : Expr
  | binop (meta : Bool) (op : BinKind) (left right : Expr) : Expr
  | not (meta : Bool) (expr : Expr) : Expr

end

deriving instance DecidableEq for Expr
deriving instance DecidableEq for UpdateChain

/-- The multi-revision flag of a node (`expr->meta`). -/
def Expr.meta : Expr → Bool
  | .constant m _ _ => m
  | .notOptimized m _ => m
  | .read m _ _ _ => m
  | .select m _ _ _ _ _ _ => m
  | .concat m _ _ => m
  | .extract m _ _ _ => m
  | .zext m _ _ => m
  | .sext m _ _ => m
  | .binop m _ _ _ => m
  | .not m _ => m

/-! Factory functions used by `splitExpr` to rebuild nodes.

Modelled from the spec: the `XExpr::create` factories live in `Expr.cpp`,
which is not among the sources; per spec §3 nodes are immutable and
hash-consed by structure, and the multi-revision flag marks a node "built by
combining sub-expressions originating from different program revisions" —
modelled here as plain structural construction with the flag inherited as
the disjunction of the children's flags.  None of the verified claims
depends on the flag of a rebuilt node. -/

/-- Modelled from the spec: `NotOptimizedExpr::create` (Expr.cpp, not in
the sources): structural construction. -/
def notOptimizedCreate (src : Expr) : Expr := .notOptimized src.meta src

/-- Modelled from the spec: `ReadExpr::create` (Expr.cpp, not in the
sources): rebuilds the read with the original update list unchanged. -/
def readCreate (updates : UpdateChain) (root : Nat) (index : Expr) : Expr :=
  .read index.meta updates root index

/-- Modelled from the spec: the three-argument `SelectExpr::create`
(Expr.cpp, not in the sources): plain (non-merge) select node. -/
def selectCreate (cond t f : Expr) : Expr :=
  .select (cond.meta || t.meta || f.meta) false 0 0 cond t f

/-- Modelled from the spec: `ConcatExpr::create` (Expr.cpp, not in the
sources): structural construction. -/
def concatCreate (l r : Expr) : Expr := .concat (l.meta || r.meta) l r

/-- Modelled from the spec: `ExtractExpr::create` (Expr.cpp, not in the
sources): preserves offset and width verbatim. -/
def extractCreate (e : Expr) (offset width : Nat) : Expr :=
  .extract e.meta e offset width

/-- Modelled from the spec: `ZExtExpr::create` (Expr.cpp, not in the
sources). -/
def zextCreate (src : Expr) (width : Nat) : Expr := .zext src.meta src width

/-- Modelled from the spec: `SExtExpr::create` (Expr.cpp, not in the
sources). -/
def sextCreate (src : Expr) (width : Nat) : Expr := .sext src.meta src width

/-- Modelled from the spec: the `_class_kind##Expr::create` factories of the
23 binary kinds (Expr.cpp, not in the sources). -/
def binopCreate (op : BinKind) (l r : Expr) : Expr :=
  .binop (l.meta || r.meta) op l r

/-- Modelled from the spec: `NotExpr::create` (Expr.cpp, not in the
sources). -/
def notCreate (e : Expr) : Expr := .not e.meta e

/-! ## The patch splitter (ExprUtil.cpp:143-259) -/

/-- `klee::splitExpr`: decompose a multi-revision expression into
(revision tag, single-revision expression) pairs.  Direct transcription of
the `switch` in ExprUtil.cpp:143-259; the nested `for` loops over the
recursive results become `List.map` / `List.flatMap` in the same order. -/
def splitExpr (e : Expr) : List (PatchNo × Expr) :=
  if e.meta = false then [(0, e)]
  else
    match e with
    | .notOptimized _ src =>
        (splitExpr src).map fun s => (s.1, notOptimizedCreate s.2)
    | .read _ updates root index =>
        (splitExpr index).map fun i => (i.1, readCreate updates root i.2)
    | .select _ mrg truePatch falsePatch cond t f =>
        if mrg then
          ((splitExpr t).map fun p => (pickPatchNo truePatch p.1, p.2)) ++
          ((splitExpr f).map fun p => (pickPatchNo falsePatch p.1, p.2))
        else
          (splitExpr cond).flatMap fun c =>
            (splitExpr t).flatMap fun tp =>
              (splitExpr f).map fun fp =>
                (pickPatchNo c.1 (pickPatchNo tp.1 fp.1),
                 selectCreate c.2 tp.2 fp.2)
    | .concat _ l r =>
        (splitExpr l).flatMap fun a =>
          (splitExpr r).map fun b =>
            (pickPatchNo a.1 b.1, concatCreate a.2 b.2)
    | .extract _ x offset width =>
        (splitExpr x).map fun s => (s.1, extractCreate s.2 offset width)
    | .zext _ src width =>
        (splitExpr src).map fun s => (s.1, zextCreate s.2 width)
    | .sext _ src width =>
        (splitExpr src).map fun s => (s.1, sextCreate s.2 width)
    | .binop _ op l r =>
        (splitExpr l).flatMap fun a =>
          (splitExpr r).map fun b =>
            (pickPatchNo a.1 b.1, binopCreate op a.2 b.2)
    | .not _ x =>
        (splitExpr x).map fun s => (s.1, notCreate s.2)
    | .constant _ _ _ => [(0, e)]

/-! ## The dependency finder (ExprUtil.cpp:20-75)

`findReads` is an explicit-stack DFS with a visited set (`ExprHashSet`,
structural identity — the DAG is hash-consed) and a per-update-chain-head
memo set.  The loop is modelled as a fuel-indexed iteration; the fuel
`Expr.nodeCount e + 1` dominates the real iteration count (each loop
iteration pops one entry and every push is gated by a fresh insertion into
the visited set, so there are at most as many iterations as distinct
non-constant nodes). -/

/-- `isa<ConstantExpr>(e)`. -/
def Expr.isConstant : Expr → Bool
  | .constant _ _ _ => true
  | _ => false

/-- `e->getKid(i)` for `i = 0 .. getNumKids()-1`, per node kind.  Only used
by the generic (non-read, non-constant) branch of the loop. -/
def Expr.kids : Expr → List Expr
  | .constant _ _ _ => []
  | .notOptimized _ src => [src]
  | .read _ _ _ index => [index]
  | .select _ _ _ _ cond t f => [cond, t, f]
  | .concat _ l r => [l, r]
  | .extract _ x _ _ => [x]
  | .zext _ src _ => [src]
  | .sext _ src _ => [src]
  | .binop _ _ l r => [l, r]
  | .not _ x => [x]

/-- The `(index, value)` pairs of an update chain, head first, as walked by
`for (un = head; un; un = un->next)`. -/
def UpdateChain.entries : UpdateChain → List (Expr × Expr)
  | .nil => []
  | .node i v next => (i, v) :: UpdateChain.entries next

mutual

/-- Count of expression nodes including update-chain index/value
expressions; an upper bound on the loop's iteration count. -/
def Expr.nodeCount : Expr → Nat
  | .constant _ _ _ => 1
  | .notOptimized _ src => 1 + src.nodeCount
  | .read _ updates _ index => 1 + index.nodeCount + updates.nodeCount
  | .select _ _ _ _ c t f => 1 + c.nodeCount + t.nodeCount + f.nodeCount
  | .concat _ l r => 1 + l.nodeCount + r.nodeCount
  | .extract _ x _ _ => 1 + x.nodeCount
  | .zext _ src _ => 1 + src.nodeCount
  | .sext _ src _ => 1 + src.nodeCount
  | .binop _ _ l r => 1 + l.nodeCount + r.nodeCount
  | .not _ x => 1 + x.nodeCount

/-- Node count of an update chain's index/value expressions. -/
def UpdateChain.nodeCount : UpdateChain → Nat
  | .nil => 0
  | .node i v next => i.nodeCount + v.nodeCount + next.nodeCount

end

/-- The loop state of `findReads`: the explicit DFS stack (head = top), the
visited set, the update-chain-head memo set and the accumulated results. -/
structure FRState where
  stack : List Expr
  visited : List Expr
  updates : List UpdateChain
  results : List Expr
deriving DecidableEq

/-- `if (!isa<ConstantExpr>(k) && visited.insert(k).second)
      stack.push_back(k);`
on a (stack, visited) pair. -/
def tryPush (sv : List Expr × List Expr) (k : Expr) : List Expr × List Expr :=
  if k.isConstant then sv
  else if k ∈ sv.2 then sv
  else (k :: sv.1, k :: sv.2)

/-- One iteration body of the `while (!stack.empty())` loop, applied to the
popped top element (already removed from `st.stack`). -/
def frStep (visitUpdates : Bool) (top : Expr) (st : FRState) : FRState :=
  match top with
  | .read _ updates _ index =>
      let results := st.results ++ [top]
      let sv := tryPush (st.stack, st.visited) index
      if visitUpdates then
        if updates ∈ st.updates then
          ⟨sv.1, sv.2, st.updates, results⟩
        else
          let sv2 := updates.entries.foldl
            (fun acc p => tryPush (tryPush acc p.1) p.2) sv
          ⟨sv2.1, sv2.2, updates :: st.updates, results⟩
      else ⟨sv.1, sv.2, st.updates, results⟩
  | top =>
      if top.isConstant then st
      else
        let sv := top.kids.foldl tryPush (st.stack, st.visited)
        ⟨sv.1, sv.2, st.updates, st.results⟩

/-- The `while (!stack.empty())` loop, fuel-indexed. -/
def frLoop (visitUpdates : Bool) : Nat → FRState → FRState
  | 0, st => st
  | fuel + 1, st =>
      match st.stack with
      | [] => st
      | top :: rest =>
          frLoop visitUpdates fuel
            (frStep visitUpdates top ⟨rest, st.visited, st.updates, st.results⟩)

/-- Initial state: the root is pushed (and marked visited) unless constant. -/
def frInit (e : Expr) : FRState :=
  if e.isConstant then ⟨[], [], [], []⟩ else ⟨[e], [e], [], []⟩

/-- Final loop state of `findReads e visitUpdates`. -/
def frFinal (e : Expr) (visitUpdates : Bool) : FRState :=
  frLoop visitUpdates (e.nodeCount + 1) (frInit e)

/-- `klee::findReads` (ExprUtil.cpp:20-75): the collected read nodes, in
pop (first-encountered) order. -/
def findReads (e : Expr) (visitUpdates : Bool) : List Expr :=
  (frFinal e visitUpdates).results

/-! ## The Differentiator record (Differentiator.h:32-41, Differentiator.cpp)

Byte strings are `List Nat` (byte values).  `std::map` fields are sorted
association lists: `args : std::map<std::uint8_t, std::string>` sorted by
the numeric key, `outputs : std::map<std::string, pair<string,string>>`
sorted by byte-wise lexicographic comparison of the name (`std::string
operator<`).  The rendered stream is a `List Nat` of the emitted bytes. -/

/-- Byte values of a Lean string literal (used only to write concrete
ASCII test data and expected renderings). -/
def bytes (s : String) : List Nat := s.data.map Char.toNat

/-- Byte-wise lexicographic `std::string operator<`. -/
def bytesLt : List Nat → List Nat → Bool
  | [], [] => false
  | [], _ :: _ => true
  | _ :: _, [] => false
  | a :: as, b :: bs => if a < b then true else if b < a then false else bytesLt as bs

/-- `std::map` insertion with assignment semantics (`map[key] = value`):
keeps the association list sorted by `bytesLt`, overwriting an existing
key.  This is the ordered-container behaviour of the `outputs` field's type
`std::map<std::string, std::pair<std::string, std::string>>`
(Differentiator.h:37). -/
def mapInsert (m : List (List Nat × α)) (k : List Nat) (v : α) :
    List (List Nat × α) :=
  match m with
  | [] => [(k, v)]
  | (k', v') :: rest =>
      if bytesLt k k' then (k, v) :: (k', v') :: rest
      else if bytesLt k' k then (k', v') :: mapInsert rest k v
      else (k', v) :: rest

/-- The `Differentiator` record (Differentiator.h:32-41).  The `stdouts`
field is not consulted by the renderer and is omitted. -/
structure Differentiator where
  revA : Nat
  revB : Nat
  args : List (Nat × List Nat)
  outputs : List (List Nat × (List Nat × List Nat))
deriving DecidableEq

/-- `std::quoted(s)`: a double quote, each byte with `"` and `\` escaped by
a backslash, and a closing double quote. -/
def quoted (s : List Nat) : List Nat :=
  34 :: (s.flatMap fun c => if c = 34 ∨ c = 92 then [92, c] else [c]) ++ [34]

/-- `inline char hex(unsigned char c)` (Differentiator.cpp:37-39):
`(c < 10) ? '0' + c : 'a' + c - 10`, with the `int` result converted back
to a byte. -/
def hexChar (c : Nat) : Nat :=
  if c < 10 then 48 + c else (97 + c - 10) % 256

/-- One byte as escaped by `writeHex` (Differentiator.cpp:41-44).  The loop
variable `c` is a plain `char`, signed on the reference x86-64 target, so a
byte `b ≥ 128` enters the expression `c >> 4` as the negative value
`b - 256`; the arithmetic right shift is floor division and the shifted
value is then converted to `unsigned char` (mod 256) at the call of `hex`.
`c & 0xf` is the low nibble `b % 16` in two's complement. -/
def writeHexByte (b : Nat) : List Nat :=
  let c : Int := if b < 128 then (b : Int) else (b : Int) - 256
  let hi : Nat := (Int.fdiv c 16 % 256).toNat
  let lo : Nat := b % 16
  [92, 120, hexChar hi, hexChar lo]

/-- `writeHex` (Differentiator.cpp:41-44) over a byte string. -/
def writeHex (s : List Nat) : List Nat := s.flatMap writeHexByte

/-- Decimal rendering of a revision identifier (`os << d.revA`). -/
def decimal (n : Nat) : List Nat := bytes (Nat.repr n)

/-- The argument loop of `operator<<` (Differentiator.cpp:48-55): iterates
`d.args` in key order with a `uint8_t` counter `last`, asserting
`p.first == last` (dense indices); a space before every entry but the
first.  Assertion failure aborts: modelled as `none`. -/
def renderArgs : List (Nat × List Nat) → Nat → Option (List Nat)
  | [], _ => some []
  | (k, v) :: rest, last =>
      if k ≠ last % 256 then none
      else
        match renderArgs rest (last + 1) with
        | none => none
        | some tail =>
            some ((if last % 256 ≠ 0 then [32] else []) ++ quoted v ++ tail)

/-- The output loop of `operator<<` (Differentiator.cpp:57-65): for each
entry of the `outputs` map, `" :"` (or `":"` for the first), the name,
`" {"`, revA, a space, the hex-escaped A-bytes, a space, revB, a space, the
hex-escaped B-bytes, `"}"`. -/
def renderOutputs (rA rB : Nat) :
    List (List Nat × (List Nat × List Nat)) → Nat → List Nat
  | [], _ => []
  | (name, (a, b)) :: rest, last =>
      (if last % 256 ≠ 0 then [32, 58] else [58]) ++ name ++ [32, 123] ++
      decimal rA ++ [32] ++ writeHex a ++ [32] ++
      decimal rB ++ [32] ++ writeHex b ++ [125] ++
      renderOutputs rA rB rest (last + 1)

/-- `operator<<(llvm::raw_ostream&, const Differentiator&)`
(Differentiator.cpp:46-69): `{(`, the argument list, `) {`, the output
entries, `}}`. -/
def render (d : Differentiator) : Option (List Nat) :=
  match renderArgs d.args 0 with
  | none => none
  | some a =>
      some ([123, 40] ++ a ++ [41, 32, 123] ++
            renderOutputs d.revA d.revB d.outputs 0 ++ [125, 125])

/-! ## ExecutionState and merge (ExecutionState.cpp:156-317)

The state components consulted or mutated by `merge` are modelled:
instruction pointer, symbolic-object list, call stack (caller / function /
register file per frame), address space (ordered map from memory-object id
to object state) and the constraint set.  Instruction, function and
memory-object handles are identity tokens (`Nat`); constraint expressions
are `Expr` nodes from above.

`merge` takes `b` by const reference in the source and cannot modify it; in
this functional embedding it returns the `(result, new self)` pair, an early
`return false` being `some (false, self-unchanged)` — all precondition
checks precede the first mutation in the source.  `none` models a fatal
`assert` on the mutation path (a read-only object found mutated). -/

/-- `StackFrame`: caller instruction, owning function, register file
(`locals`; a `none` entry is a null `ref<Expr>` cell). -/
structure StackFrame where
  caller : Nat
  kf : Nat
  locals : List (Option Expr)
deriving DecidableEq

/-- Object state bound to a memory object.  `osid` models the
`ObjectState*` pointer identity compared by `ai->second.get() !=
bi->second.get()`; `bytes` the per-byte expressions (Memory.h is not among
the sources; per spec §3 an object state holds one expression per byte and
a read-only flag). -/
structure ObjectState where
  osid : Nat
  readOnly : Bool
  bytes : List Expr
deriving DecidableEq

/-- The components of `ExecutionState` that `merge` reads or writes. -/
structure ExecutionState where
  pc : Nat
  symbolics : List (Nat × Nat)
  stack : List StackFrame
  objects : List (Nat × ObjectState)
  constraints : List Expr
deriving DecidableEq

/-- The stack-compatibility walk (ExecutionState.cpp:169-181): frame by
frame, equal caller and equal owning function; afterwards both iterators
must be at the end (equal depth). -/
def stackMatch : List StackFrame → List StackFrame → Bool
  | fa :: ra, fb :: rb =>
      fa.caller = fb.caller && fa.kf = fb.kf && stackMatch ra rb
  | [], [] => true
  | _, _ => false

/-- The address-space walk (ExecutionState.cpp:232-258): position by
position both states must bind the same memory object; a leftover on
either side means the mappings differ. -/
def objectsMatch : List (Nat × ObjectState) → List (Nat × ObjectState) → Bool
  | (ka, _) :: ra, (kb, _) :: rb => ka = kb && objectsMatch ra rb
  | [], [] => true
  | _, _ => false

/-- `ConstantExpr::alloc(1, Expr::Bool)`: the boolean true constant seeding
the guard conjunctions. -/
def trueExpr : Expr := .constant false 1 1

/-- Modelled from the spec: `AndExpr::create` (Expr.cpp, not in the
sources): structural conjunction node. -/
def andCreate (l r : Expr) : Expr := binopCreate .and l r

/-- Modelled from the spec: `OrExpr::create` (Expr.cpp, not in the
sources): structural disjunction node. -/
def orCreate (l r : Expr) : Expr := binopCreate .or l r

/-- The guard built from a constraint suffix (ExecutionState.cpp:262-269):
`inA` starts as the true constant and conjoins every suffix element. -/
def suffixGuard (suffix : List Expr) : Expr := suffix.foldl andCreate trueExpr

/-- Register-file merge of one frame (ExecutionState.cpp:280-289): where
both cells hold a value, `self`'s becomes `select(inA, av, bv)`; where
either is null the cell is left as `self`'s. -/
def mergeLocals (inA : Expr) :
    List (Option Expr) → List (Option Expr) → List (Option Expr)
  | some av :: ra, some bv :: rb =>
      some (selectCreate inA av bv) :: mergeLocals inA ra rb
  | a :: ra, _ :: rb => a :: mergeLocals inA ra rb
  | as_, _ => as_

/-- The stack-merge loop (ExecutionState.cpp:275-290). -/
def mergeStacks (inA : Expr) :
    List StackFrame → List StackFrame → List StackFrame
  | fa :: ra, fb :: rb =>
      { fa with locals := mergeLocals inA fa.locals fb.locals } ::
        mergeStacks inA ra rb
  | fas, _ => fas

/-- The mutated-object pass (ExecutionState.cpp:248-252 collects the set of
positions where the bound object states differ in pointer identity;
292-307 rewrites each such object byte by byte to
`select(inA, a-byte, b-byte)` in a writable copy).  A read-only mutated
object trips the assert — modelled as `none`. -/
def mergeObjects (inA : Expr) :
    List (Nat × ObjectState) → List (Nat × ObjectState) →
    Option (List (Nat × ObjectState))
  | [], [] => some []
  | (ka, osa) :: ra, (_, osb) :: rb =>
      match mergeObjects inA ra rb with
      | none => none
      | some rest =>
          if osa.osid ≠ osb.osid then
            if osa.readOnly then none
            else
              some ((ka, { osa with
                bytes := List.zipWith (fun av bv => selectCreate inA av bv)
                  osa.bytes osb.bytes }) :: rest)
          else some ((ka, osa) :: rest)
  | _, _ => none

/-- `ExecutionState::merge` (ExecutionState.cpp:156-317).  The `std::set`
partition of the constraint lists is modelled with `List.dedup` /
`List.filter`; `std::set`'s iteration order (the expression comparison of
Expr.cpp, not in the sources) is modelled as first-occurrence order, which
affects only the order of conjuncts and of re-added common constraints.
`ConstraintManager::addConstraint` (lib/Expr/Constraints.cpp, not in the
sources) is modelled from the spec: "replace self's constraint set with the
common prefix conjoined with (inA OR inB)" — each added constraint is
appended. -/
def ExecutionState.merge (a b : ExecutionState) :
    Option (Bool × ExecutionState) :=
  if a.pc ≠ b.pc then some (false, a)
  else if a.symbolics ≠ b.symbolics then some (false, a)
  else if ¬ stackMatch a.stack b.stack then some (false, a)
  else if ¬ objectsMatch a.objects b.objects then some (false, a)
  else
    let aSet := a.constraints.dedup
    let bSet := b.constraints.dedup
    let commonConstraints := aSet.filter (fun c => c ∈ bSet)
    let aSuffix := aSet.filter (fun c => c ∉ commonConstraints)
    let bSuffix := bSet.filter (fun c => c ∉ commonConstraints)
    let inA := suffixGuard aSuffix
    let inB := suffixGuard bSuffix
    match mergeObjects inA a.objects b.objects with
    | none => none
    | some newObjects =>
        some (true,
          { a with
            stack := mergeStacks inA a.stack b.stack,
            objects := newObjects,
            constraints := commonConstraints ++ [orCreate inA inB] })

/-! ## ktest-gen object records (ktest-gen.cpp:26-37)

`#define MAX 64` and
`static void push_obj(KTest *b, ...) {
   KTestObject *o = &b->objects[b->numObjects++];
   assert(b->numObjects < MAX);
   ... }`
The record's `objects` buffer is allocated with `MAX` slots.  The entry is
written at the pre-increment index; the assert fires on the incremented
counter.  Assertion failure aborts: modelled as `none`. -/

/-- One named byte-array object of a test-input record. -/
structure KTestObject where
  name : List Nat
  objBytes : List Nat
deriving DecidableEq

/-- The `KTest` record as far as `push_obj` touches it. -/
structure KTest where
  numObjects : Nat
  objects : List KTestObject
deriving DecidableEq

/-- `MAX` (ktest-gen.cpp:26). -/
def MAX : Nat := 64

/-- `push_obj` (ktest-gen.cpp:27-37): store at index `numObjects`,
post-increment, then `assert(numObjects < MAX)`. -/
def push_obj (b : KTest) (name : List Nat) (objBytes : List Nat) :
    Option KTest :=
  let n := b.numObjects + 1
  if n < MAX then
    some { numObjects := n, objects := b.objects ++ [⟨name, objBytes⟩] }
  else none

/-- The empty record as initialised in `main` (ktest-gen.cpp:83-84). -/
def emptyKTest : KTest := ⟨0, []⟩

/-- `k` successive `push_obj` calls onto a record (names and contents are
irrelevant to the counter assertion). -/
def pushN (b : KTest) : Nat → Option KTest
  | 0 => some b
  | k + 1 =>
      match pushN b k with
      | none => none
      | some b' => push_obj b' (bytes ("obj")) []

/-! ## Invariants and concrete data used by the theorems -/

/-- Invariant of the `findReads` (stack, visited) pair relative to the
results collected so far: the stack is duplicate free, every stack entry
and every collected result is memoized in the visited set, and the stack is
disjoint from the results. -/
def StackInv (r : List Expr) (sv : List Expr × List Expr) : Prop :=
  sv.1.Nodup ∧ (∀ x ∈ sv.1, x ∈ sv.2) ∧ (∀ x ∈ r, x ∈ sv.2) ∧
    (∀ x ∈ sv.1, x ∉ r)

/-- Invariant of a full `findReads` loop state. -/
def FRInv (st : FRState) : Prop :=
  st.results.Nodup ∧ StackInv st.results (st.stack, st.visited)

/-- The constraints common to both states, as computed by merge's set
intersection (iteration order modelled as first occurrence in `a`). -/
def commonOf (a b : ExecutionState) : List Expr :=
  a.constraints.dedup.filter (fun c => c ∈ b.constraints.dedup)

/-- The constraints unique to `a` (merge's `aSuffix`). -/
def aUnique (a b : ExecutionState) : List Expr :=
  a.constraints.dedup.filter (fun c => c ∉ commonOf a b)

/-- The constraints unique to `b` (merge's `bSuffix`). -/
def bUnique (a b : ExecutionState) : List Expr :=
  b.constraints.dedup.filter (fun c => c ∉ commonOf a b)

/-- Concrete expressions exercising the merge-select branch of
`splitExpr`: `innerSel` is a merge select tagged with patch 2 on both
branches, nested as the true branch of `outerSel`, itself tagged with
patch 1 on both branches. -/
def k1 : Expr := .constant false 8 1

/-- Second leaf constant for the nested merge-select example. -/
def k2 : Expr := .constant false 8 2

/-- False-branch leaf constant for the outer merge select. -/
def k3 : Expr := .constant false 8 3

/-- Condition leaf for the select examples. -/
def c0 : Expr := .constant false 1 0

/-- Inner merge select: both branch patch indices are 2. -/
def innerSel : Expr := .select true true 2 2 c0 k1 k2

/-- Outer merge select: both branch patch indices are 1; its true branch is
`innerSel`. -/
def outerSel : Expr := .select true true 1 1 c0 innerSel k3

/-- A one-entry update chain with constant index and value. -/
def chain1 : UpdateChain := .node (.constant false 32 0) (.constant false 8 9) .nil

/-- A read over `chain1` at constant index 1. -/
def r1 : Expr := .read false chain1 7 (.constant false 32 1)

/-- A distinct read sharing `chain1` as update-chain head. -/
def r2 : Expr := .read false chain1 7 (.constant false 32 2)

/-- A DAG in which the single read node `r1` is reachable along two
different access paths (both kids of the concat). -/
def twoPathsEx : Expr := .concat false r1 r1

/-- A DAG with two distinct read nodes sharing one update-chain head. -/
def sharedChainEx : Expr := .concat false r1 r2

/-- Two-output record inserted in anti-lexicographic order: `out!1!a`
first, then `out!0!a`. -/
def outputsRev : List (List Nat × (List Nat × List Nat)) :=
  mapInsert (mapInsert [] (bytes ("out!1!a")) ([1], [2]))
    (bytes ("out!0!a")) ([3], [4])

/-- One-frame state used to witness the depth-mismatch case. -/
def shallowState : ExecutionState :=
  ⟨0, [], [⟨0, 0, []⟩], [], []⟩

/-- Two-frame state with the same pc and symbolics as `shallowState`. -/
def deepState : ExecutionState :=
  ⟨0, [], [⟨0, 0, []⟩, ⟨1, 1, []⟩], [], []⟩

/-- First constraint of the C5 witness states. -/
def cp : Expr := .constant false 8 1

/-- Second constraint of the C5 witness states. -/
def cq : Expr := .constant false 8 2

/-- C5 witness state `a`: empty stack and address space, one constraint. -/
def mergeA : ExecutionState := ⟨0, [], [], [], [cp]⟩

/-- C5 witness state `b`: same pc, constraints `[cp, cq]`. -/
def mergeB : ExecutionState := ⟨0, [], [], [], [cp, cq]⟩

/-- The merged state produced from `mergeA` and `mergeB`. -/
def mergeAB : ExecutionState :=
  ⟨0, [], [], [],
    [cp, orCreate (suffixGuard []) (suffixGuard [cq])]⟩

/-! ## Theorems -/

/-! ### C1 — the patch combinator -/

/-- C1 counterexample: the claim says that when both arguments are real
revision numbers the combinator returns its first argument `m`; at
`m = 1, n = 2` (both real, differing) `pickPatchNo` returns `2`, the
second argument. -/
theorem pickPatchNo_both_real_counterexample :
    RealRev 1 ∧ RealRev 2 ∧ pickPatchNo 1 2 = 2 ∧ pickPatchNo 1 2 ≠ 1 := by
  refine ⟨⟨by decide, by decide⟩, ⟨by decide, by decide⟩, by decide, by decide⟩

/-- C1 amended: `pickPatchNo m n` returns `n` whenever `n` is a real
revision number and `m` otherwise.  Hence when exactly one argument is real
that one wins, when neither is real the first argument `m` is returned, but
when both are real (even if they differ) the result is the second argument
`n`, not `m`. -/
theorem pickPatchNo_amended (m n : PatchNo)
    (hm : m < 2 ^ 64) (hn : n < 2 ^ 64) :
    (RealRev n → pickPatchNo m n = n) ∧
    (¬ RealRev n → pickPatchNo m n = m) ∧
    (RealRev m → ¬ RealRev n → pickPatchNo m n = m) ∧
    (¬ RealRev m → RealRev n → pickPatchNo m n = n) ∧
    (RealRev m → RealRev n → pickPatchNo m n = n) := by
  have _ := hm
  have _ := hn
  refine ⟨fun h => ?_, fun h => ?_, fun _ h => ?_, fun _ h => ?_,
    fun _ h => ?_⟩ <;>
    simp only [pickPatchNo, RealRev] at h ⊢ <;> simp [h]

/-- C1 amended, witness at concrete inputs. -/
theorem pickPatchNo_amended_witness :
    pickPatchNo 1 2 = 2 ∧ pickPatchNo 3 0 = 3 ∧
    pickPatchNo 0 0 = 0 ∧ pickPatchNo 0 5 = 5 := by
  refine ⟨(pickPatchNo_amended 1 2 (by norm_num) (by norm_num)).1 (by decide),
    (pickPatchNo_amended 3 0 (by norm_num) (by norm_num)).2.1 (by decide),
    (pickPatchNo_amended 0 0 (by norm_num) (by norm_num)).2.1 (by decide),
    (pickPatchNo_amended 0 5 (by norm_num) (by norm_num)).1 (by decide)⟩

/-! ### C7 — non-multi-revision fast path -/

/-- C7: for every expression whose multi-revision flag is not set,
`splitExpr` returns exactly `[(0, e)]` with `e` unchanged. -/
theorem splitExpr_not_meta (e : Expr) (h : e.meta = false) :
    splitExpr e = [(0, e)] := by
  rw [splitExpr.eq_def, if_pos h]

/-- C7 witness: a non-multi-revision concat node. -/
theorem splitExpr_not_meta_witness :
    Expr.meta (.concat false (.constant false 8 1) (.constant false 8 2))
      = false ∧
    splitExpr (.concat false (.constant false 8 1) (.constant false 8 2))
      = [(0, .concat false (.constant false 8 1) (.constant false 8 2))] :=
  ⟨rfl, splitExpr_not_meta _ rfl⟩

/-! ### C2 — merge-marked select nodes -/

/-- C2 counterexample: the claim says every pair produced from splitting
the true branch is tagged with the node's stored true-branch index (here 1),
the stored index taking precedence over tags discovered by the recursive
split.  Splitting `outerSel` instead tags both true-branch pairs with the
discovered revision 2: the recursion's tag wins over the stored index. -/
theorem splitExpr_merge_tag_counterexample :
    splitExpr outerSel = [(2, k1), (2, k2), (1, k3)] ∧
    ((splitExpr innerSel).map Prod.fst = [2, 2]) ∧ (2 : PatchNo) ≠ 1 := by
  refine ⟨?_, ?_, by decide⟩ <;>
    simp [outerSel, innerSel, splitExpr, k1, k2, k3, c0, Expr.meta,
      pickPatchNo, mergedSentinel]

/-- C2 amended: on a multi-revision select node with the merge flag set,
`splitExpr` never recurses into the condition (the result is independent of
it), and each pair from the split of the true (resp. false) branch is
tagged `pickPatchNo stored discovered`: the stored branch index is used
exactly when the discovered tag is not a real revision number, while a real
discovered tag takes precedence over the stored index. -/
theorem splitExpr_merge_select_amended (truePatch falsePatch : PatchNo)
    (cond cond' t f : Expr) :
    splitExpr (.select true true truePatch falsePatch cond t f) =
      ((splitExpr t).map fun p => (pickPatchNo truePatch p.1, p.2)) ++
      ((splitExpr f).map fun p => (pickPatchNo falsePatch p.1, p.2)) ∧
    splitExpr (.select true true truePatch falsePatch cond t f) =
      splitExpr (.select true true truePatch falsePatch cond' t f) := by
  constructor <;> rw [splitExpr.eq_def] <;> rfl

/-! ### C9 — findReads and read multiplicity

Helper invariant: every stack entry is memoized in the visited set, the
visited set also covers every collected result, the stack has no duplicate
entries and is disjoint from the results.  Each push is gated by a fresh
insertion into the visited set, so a node can enter the stack (and hence
the result list) at most once. -/

theorem tryPush_stackInv (r : List Expr) (sv : List Expr × List Expr)
    (k : Expr) (h : StackInv r sv) : StackInv r (tryPush sv k) := by
  obtain ⟨hnd, hsv, hrv, hdisj⟩ := h
  unfold tryPush
  split
  · exact ⟨hnd, hsv, hrv, hdisj⟩
  · split
    · exact ⟨hnd, hsv, hrv, hdisj⟩
    · rename_i hkv
      refine ⟨?_, ?_, ?_, ?_⟩
      · exact List.Nodup.cons (fun hk => hkv (hsv k hk)) hnd
      · intro x hx
        rcases List.mem_cons.mp hx with h | h
        · exact List.mem_cons.mpr (Or.inl h)
        · exact List.mem_cons.mpr (Or.inr (hsv x h))
      · intro x hx
        exact List.mem_cons.mpr (Or.inr (hrv x hx))
      · intro x hx
        rcases List.mem_cons.mp hx with h | h
        · subst h
          exact fun hk => hkv (hrv x hk)
        · exact hdisj x h

theorem foldl_preserve {α β : Type _} (P : α → Prop) (f : α → β → α)
    (hf : ∀ a b, P a → P (f a b)) :
    ∀ (l : List β) (a : α), P a → P (l.foldl f a) := by
  intro l
  induction l with
  | nil => intro a ha; exact ha
  | cons b bs ih => intro a ha; exact ih (f a b) (hf a b ha)

theorem foldl_tryPush_stackInv (r : List Expr) (l : List Expr)
    (sv : List Expr × List Expr) (h : StackInv r sv) :
    StackInv r (l.foldl tryPush sv) :=
  foldl_preserve (StackInv r) tryPush
    (fun a k hp => tryPush_stackInv r a k hp) l sv h

theorem foldl_tryPush2_stackInv (r : List Expr) (l : List (Expr × Expr))
    (sv : List Expr × List Expr) (h : StackInv r sv) :
    StackInv r (l.foldl (fun acc p => tryPush (tryPush acc p.1) p.2) sv) :=
  foldl_preserve (StackInv r) (fun acc p => tryPush (tryPush acc p.1) p.2)
    (fun a p hp => tryPush_stackInv r _ p.2 (tryPush_stackInv r a p.1 hp))
    l sv h

theorem frStep_inv (visitUpdates : Bool) (top : Expr) (st : FRState)
    (h : FRInv st) (htopv : top ∈ st.visited) (htopr : top ∉ st.results)
    (htops : top ∉ st.stack) : FRInv (frStep visitUpdates top st) := by
  obtain ⟨hrnd, hnd, hsv, hrv, hdisj⟩ := h
  have hstack' : StackInv (st.results ++ [top]) (st.stack, st.visited) := by
    refine ⟨hnd, hsv, ?_, ?_⟩
    · intro x hx
      rcases List.mem_append.mp hx with h | h
      · exact hrv x h
      · rcases List.mem_singleton.mp h with rfl
        exact htopv
    · intro x hx hmem
      rcases List.mem_append.mp hmem with h | h
      · exact hdisj x hx h
      · rcases List.mem_singleton.mp h with rfl
        exact htops hx
  have hres' : (st.results ++ [top]).Nodup := by
    simpa [List.nodup_append] using ⟨hrnd, htopr⟩
  match top with
  | .read m updates root index =>
      simp only [frStep]
      have h1 := tryPush_stackInv (st.results ++ [Expr.read m updates root index])
        (st.stack, st.visited) index hstack'
      have h2 := foldl_tryPush2_stackInv
        (st.results ++ [Expr.read m updates root index]) updates.entries
        (tryPush (st.stack, st.visited) index) h1
      split
      · split
        · exact ⟨hres', h1⟩
        · exact ⟨hres', h2⟩
      · exact ⟨hres', h1⟩
  | .constant m w v => exact ⟨hrnd, hnd, hsv, hrv, hdisj⟩
  | .notOptimized m s =>
      exact ⟨hrnd, foldl_tryPush_stackInv st.results _ _ ⟨hnd, hsv, hrv, hdisj⟩⟩
  | .select m mg tp fp c t f =>
      exact ⟨hrnd, foldl_tryPush_stackInv st.results _ _ ⟨hnd, hsv, hrv, hdisj⟩⟩
  | .concat m l r =>
      exact ⟨hrnd, foldl_tryPush_stackInv st.results _ _ ⟨hnd, hsv, hrv, hdisj⟩⟩
  | .extract m x o w =>
      exact ⟨hrnd, foldl_tryPush_stackInv st.results _ _ ⟨hnd, hsv, hrv, hdisj⟩⟩
  | .zext m s w =>
      exact ⟨hrnd, foldl_tryPush_stackInv st.results _ _ ⟨hnd, hsv, hrv, hdisj⟩⟩
  | .sext m s w =>
      exact ⟨hrnd, foldl_tryPush_stackInv st.results _ _ ⟨hnd, hsv, hrv, hdisj⟩⟩
  | .binop m op l r =>
      exact ⟨hrnd, foldl_tryPush_stackInv st.results _ _ ⟨hnd, hsv, hrv, hdisj⟩⟩
  | .not m x =>
      exact ⟨hrnd, foldl_tryPush_stackInv st.results _ _ ⟨hnd, hsv, hrv, hdisj⟩⟩

theorem frLoop_inv (visitUpdates : Bool) :
    ∀ (fuel : Nat) (st : FRState), FRInv st →
      FRInv (frLoop visitUpdates fuel st) := by
  intro fuel
  induction fuel with
  | zero => intro st h; exact h
  | succ n ih =>
      intro st h
      obtain ⟨hrnd, hnd, hsv, hrv, hdisj⟩ := h
      rw [frLoop]
      match hst : st.stack with
      | [] => exact ⟨hrnd, hnd, hsv, hrv, hdisj⟩
      | top :: rest =>
          rw [hst] at hnd hsv hdisj
          apply ih
          apply frStep_inv
          · refine ⟨hrnd, List.Nodup.of_cons hnd, ?_, hrv, ?_⟩
            · intro x hx; exact hsv x (List.mem_cons_of_mem top hx)
            · intro x hx; exact hdisj x (List.mem_cons_of_mem top hx)
          · exact hsv top (List.mem_cons_self top rest)
          · exact hdisj top (List.mem_cons_self top rest)
          · exact (List.nodup_cons.mp hnd).1

/-- Duplicate-freedom of `findReads`: every collected read node appears at
most once, whatever the expression DAG and the update-history flag. -/
theorem findReads_nodup (e : Expr) (visitUpdates : Bool) :
    (findReads e visitUpdates).Nodup := by
  have h : FRInv (frInit e) := by
    unfold frInit FRInv StackInv
    split <;> simp
  exact (frLoop_inv visitUpdates (e.nodeCount + 1) (frInit e) h).1

/-- C9 counterexample: the claim says duplicates across different access
paths are preserved (a read reachable along more than one path contributes
one occurrence per path).  In `twoPathsEx` the read `r1` is reachable along
two paths, yet the visited-set memoization makes `findReads` report it
exactly once: the result is `[r1]`, not `[r1, r1]`. -/
theorem findReads_multiplicity_counterexample :
    findReads twoPathsEx true = [r1] ∧
    (findReads twoPathsEx true).count r1 = 1 ∧
    findReads twoPathsEx true ≠ [r1, r1] := by
  refine ⟨by decide, by decide, by decide⟩

/-- C9 amended: `findReads` appends read nodes in first-encountered order
WITHOUT duplicates — a read node reachable along several access paths
contributes exactly one occurrence (the result list is always duplicate
free); two distinct read nodes sharing one update-chain head both appear in
the result while the shared chain is walked (memoized into the update set)
only once. -/
theorem findReads_amended :
    (∀ (e : Expr) (visitUpdates : Bool), (findReads e visitUpdates).Nodup) ∧
    findReads sharedChainEx true = [r2, r1] ∧
    (frFinal sharedChainEx true).updates = [chain1] :=
  ⟨findReads_nodup, by decide, by decide⟩

/-! ### C3 / C4 — Differentiator rendering order and round trip -/

theorem bytesLt_asymm : ∀ a b, bytesLt a b = true → bytesLt b a = false
  | [], [] => by simp [bytesLt]
  | [], _ :: _ => by simp [bytesLt]
  | _ :: _, [] => by simp [bytesLt]
  | a :: as, b :: bs => by
      simp only [bytesLt]
      intro h
      by_cases hab : a < b
      · simp [hab, Nat.not_lt.mpr (Nat.le_of_lt hab),
          Nat.lt_asymm hab]
      · by_cases hba : b < a
        · simp [hab, hba] at h
        · simp only [hab, hba, if_false] at h
          simp [hab, hba, bytesLt_asymm as bs h]

/-- C3 counterexample: inserting output `out!1!a` before `out!0!a`, the
rendered form nevertheless lists `out!0!a` first — the `std::map` key
(lexicographic) order, not the insertion order claimed. -/
theorem differentiator_order_counterexample :
    outputsRev = [(bytes ("out!0!a"), ([3], [4])),
                  (bytes ("out!1!a"), ([1], [2]))] ∧
    render ⟨1, 2, [], outputsRev⟩ =
      some (bytes
        ("\x7b() \x7b:out!0!a \x7b1 \\x03 2 \\x04\x7d :out!1!a \x7b1 \\x01 2 \\x02\x7d\x7d\x7d")) ∧
    render ⟨1, 2, [], outputsRev⟩ ≠
      some (bytes
        ("\x7b() \x7b:out!1!a \x7b1 \\x01 2 \\x02\x7d :out!0!a \x7b1 \\x03 2 \\x04\x7d\x7d\x7d")) := by
  refine ⟨by decide, by decide, by decide⟩

/-- C3 amended: the rendered form lists the output entries in ascending
byte-wise lexicographic order of the output names (the `std::map` key
order), regardless of the order in which they were inserted: inserting two
distinct names in either order yields the same stored map, sorted by name,
and the renderer emits the entries in that stored order. -/
theorem differentiator_order_amended (rA rB : Nat) (ka kb : List Nat)
    (va vb : List Nat × List Nat) (h : bytesLt ka kb = true) :
    mapInsert (mapInsert [] kb vb) ka va = [(ka, va), (kb, vb)] ∧
    mapInsert (mapInsert [] ka va) kb vb = [(ka, va), (kb, vb)] ∧
    render ⟨rA, rB, [], [(ka, va), (kb, vb)]⟩ =
      some ([123, 40, 41, 32, 123] ++
        ([58] ++ ka ++ [32, 123] ++ decimal rA ++ [32] ++ writeHex va.1 ++
          [32] ++ decimal rB ++ [32] ++ writeHex va.2 ++ [125]) ++
        ([32, 58] ++ kb ++ [32, 123] ++ decimal rA ++ [32] ++ writeHex vb.1 ++
          [32] ++ decimal rB ++ [32] ++ writeHex vb.2 ++ [125]) ++
        [125, 125]) := by
  refine ⟨?_, ?_, ?_⟩
  · simp [mapInsert, h]
  · simp [mapInsert, h, bytesLt_asymm ka kb h]
  · simp [render, renderArgs, renderOutputs]

/-- C3 amended, witness at concrete names inserted in both orders. -/
theorem differentiator_order_amended_witness :
    mapInsert (mapInsert [] (bytes ("out!1!a")) ([1], [2]))
        (bytes ("out!0!a")) ([3], [4]) =
      [(bytes ("out!0!a"), ([3], [4])), (bytes ("out!1!a"), ([1], [2]))] ∧
    mapInsert (mapInsert [] (bytes ("out!0!a")) ([3], [4]))
        (bytes ("out!1!a")) ([1], [2]) =
      [(bytes ("out!0!a"), ([3], [4])), (bytes ("out!1!a"), ([1], [2]))] :=
  ⟨(differentiator_order_amended 1 2 (bytes ("out!0!a")) (bytes ("out!1!a"))
      ([3], [4]) ([1], [2]) (by decide)).1,
   (differentiator_order_amended 1 2 (bytes ("out!0!a")) (bytes ("out!1!a"))
      ([3], [4]) ([1], [2]) (by decide)).2.1⟩

/-- C4: the Differentiator round trip.  The record with revisions (1, 2),
the single argument 0 ↦ "x" and the single output `out!0!a` ↦ (0x01, 0x02)
renders to exactly the byte string
`{("x") {:out!0!a {1 \x01 2 \x02}}}`. -/
theorem differentiator_roundtrip :
    render ⟨1, 2, [(0, bytes ("x"))], [(bytes ("out!0!a"), ([1], [2]))]⟩ =
      some (bytes ("\x7b(\"x\") \x7b:out!0!a \x7b1 \\x01 2 \\x02\x7d\x7d\x7d")) := by
  decide

/-! ### C8 — hex escaping -/

/-- C8: evaluation of `writeHex` at the failing inputs.  Because the loop
variable is a signed `char`, `c >> 4` sign-extends for byte values at or
above 128: byte `0x80` is rendered `\xO0` (capital letter O, not a hex
digit) instead of `\x80`, and byte `0xff` is rendered `\xVf` instead of
`\xff`.  Bytes below 128 are escaped correctly, e.g. `0x2a` as `\x2a`. -/
theorem writeHex_sign_extension_bug :
    writeHexByte 128 = [92, 120, 79, 48] ∧
    writeHexByte 128 ≠ [92, 120, 56, 48] ∧
    writeHexByte 255 = [92, 120, 86, 102] ∧
    writeHexByte 255 ≠ [92, 120, 102, 102] ∧
    writeHexByte 42 = [92, 120, 50, 97] ∧
    writeHexByte 0 = [92, 120, 48, 48] := by
  refine ⟨by decide, by decide, by decide, by decide, by decide, by decide⟩

/-! ### C10 — test-input record object pushes -/

/-- C10: evaluation of the object-count assertion.  `push_obj` increments
`numObjects` and then asserts `numObjects < 64`: 63 pushes onto an empty
record all succeed, but the 64th push — still within the 64-slot `objects`
buffer — trips the assertion and aborts. -/
theorem push_obj_64th_aborts :
    (pushN emptyKTest 63).map KTest.numObjects = some 63 ∧
    pushN emptyKTest 64 = none := by
  refine ⟨by decide, by decide⟩

/-! ### C5 / C6 — merge -/

theorem stackMatch_length :
    ∀ xs ys : List StackFrame, stackMatch xs ys = true →
      xs.length = ys.length
  | [], [], _ => rfl
  | fa :: ra, fb :: rb, h => by
      simp only [stackMatch, Bool.and_eq_true] at h
      simp [stackMatch_length ra rb h.2]
  | [], _ :: _, h => by simp [stackMatch] at h
  | _ :: _, [], h => by simp [stackMatch] at h

/-- C6: two states with identical instruction pointers and identical
symbolic-object lists but call stacks of differing depth are not mergeable:
`merge` returns false and hands back `self` exactly as it was (the
candidate `b` is taken by const reference and is never written). -/
theorem merge_depth_mismatch (a b : ExecutionState)
    (h1 : a.pc = b.pc) (h2 : a.symbolics = b.symbolics)
    (h3 : a.stack.length ≠ b.stack.length) :
    ExecutionState.merge a b = some (false, a) := by
  have hsm : stackMatch a.stack b.stack = false := by
    cases hsm : stackMatch a.stack b.stack
    · rfl
    · exact absurd (stackMatch_length _ _ hsm) h3
  unfold ExecutionState.merge
  simp [h1, h2, hsm]

/-- C6 witness: states of stack depth 1 and 2. -/
theorem merge_depth_mismatch_witness :
    ExecutionState.merge shallowState deepState = some (false, shallowState) :=
  merge_depth_mismatch shallowState deepState rfl rfl (by decide)

/-- C5: whenever `merge` succeeds, the constraint set of the updated state
is exactly the constraints common to both input states followed by the one
disjunction `inA OR inB`, where `inA` / `inB` are the conjunctions (seeded
with the true constant, so an empty conjunction is true) of the constraints
unique to `a` resp. `b`; as a set, a constraint is in the result iff it is
in both inputs or is that disjunction.  The candidate `b` is never written
(const reference / pure function of both inputs). -/
theorem merge_success_constraints (a b a' : ExecutionState)
    (h : ExecutionState.merge a b = some (true, a')) :
    a'.constraints = commonOf a b ++
      [orCreate (suffixGuard (aUnique a b)) (suffixGuard (bUnique a b))] ∧
    ∀ c : Expr, c ∈ a'.constraints ↔
      ((c ∈ a.constraints ∧ c ∈ b.constraints) ∨
        c = orCreate (suffixGuard (aUnique a b)) (suffixGuard (bUnique a b))) := by
  unfold ExecutionState.merge at h
  split at h
  · simp at h
  split at h
  · simp at h
  split at h
  · simp at h
  split at h
  · simp at h
  dsimp only at h
  split at h
  · simp at h
  rename_i newObjects hobj
  simp only [Option.some.injEq, Prod.mk.injEq, true_and] at h
  have hc : a'.constraints = commonOf a b ++
      [orCreate (suffixGuard (aUnique a b)) (suffixGuard (bUnique a b))] := by
    rw [← h]
    simp [commonOf, aUnique, bUnique]
  refine ⟨hc, fun c => ?_⟩
  rw [hc]
  simp only [List.mem_append, List.mem_singleton, commonOf, List.mem_filter,
    List.mem_dedup, decide_eq_true_eq]

/-- C5 witness: a successful concrete merge, instantiating the membership
characterisation at the disjunction itself. -/
theorem merge_success_constraints_witness :
    cq ∈ mergeAB.constraints ↔
      ((cq ∈ mergeA.constraints ∧ cq ∈ mergeB.constraints) ∨
        cq = orCreate (suffixGuard (aUnique mergeA mergeB))
          (suffixGuard (bUnique mergeA mergeB))) :=
  (merge_success_constraints mergeA mergeB mergeAB (by decide)).2 cq

end Klee
